import Mathlib

/-!
Verification of the binary serialization codec in `serialize.c` (SWI-Prolog
`cppproxy` package).  The codec is embedded shallowly: streams are byte lists
(`List Nat`, each byte < 256 on well-formed streams), C `int` arithmetic is
modelled on `Int`/`Nat` with explicit two's-complement reinterpretation, and
fallible operations return `Except`.
-/

namespace Serialize

/-- Model of the SWI-Prolog stream text-encoding modes (`IOENC` in
SWI-Stream.h).  The codec only distinguishes `ENC_UTF8`; the other modes are
carried opaquely as the stream's prior encoding. -/
inductive IOENC where
  | ENC_UNKNOWN
  | ENC_OCTET
  | ENC_ASCII
  | ENC_ISO_LATIN_1
  | ENC_ANSI
  | ENC_UTF8
  | ENC_UNICODE_BE
  | ENC_UNICODE_LE
  | ENC_WCHAR
  deriving DecidableEq

/-- Failure outcome of a codec operation: an I/O error tagged with the failing
action verb ("read"/"write", serialize.c:65-84), or a resource error tagged
with the exhausted resource (serialize.c:102-113). -/
inductive SerError where
  | ioErr : String → SerError
  | resourceErr : String → SerError
  deriving DecidableEq

/-- Reinterpretation of the low 32 bits of a natural number as a C signed
32-bit `int` (two's complement), as happens when `read_int32` stores the
reassembled word into `int v` (serialize.c:180). -/
def toSigned32 (u : Nat) : Int :=
  if u % 2^32 < 2^31 then ((u % 2^32 : Nat) : Int) else ((u % 2^32 : Nat) : Int) - 2^32

/-- The four bytes emitted by `write_int32` (serialize.c:143-156):
`b[0]=i>>24&0xff, b[1]=i>>16&0xff, b[2]=i>>8&0xff, b[3]=i&0xff`.  On a
two's-complement host `i >> k` on a signed `int` is an arithmetic shift,
i.e. floor division by `2^k`, and `& 0xff` keeps the low 8 bits of the
two's-complement pattern, i.e. `emod 256`. -/
def write_int32 (i : Int) : List Nat :=
  [ ((i.fdiv (2^24)) % 256).toNat,
    ((i.fdiv (2^16)) % 256).toNat,
    ((i.fdiv (2^8)) % 256).toNat,
    (i % 256).toNat ]

/-- `read_int32` (serialize.c:172-184): `Sfread` demands 4 bytes (a stream
with fewer raises the I/O error with action "read"), then
`v = b[0]<<24 | b[1]<<16 | b[2]<<8 | b[3]` is stored into the 32-bit signed
`int v` (`toSigned32`). -/
def read_int32 : List Nat → Except SerError (Int × List Nat)
  | b0 :: b1 :: b2 :: b3 :: rest =>
      .ok (toSigned32 (b0 <<< 24 ||| b1 <<< 16 ||| b2 <<< 8 ||| b3), rest)
  | _ => .error (.ioErr "read")

/-- A sum `a * 2^k + b` with `b < 2^k` has the bits of its two summands. -/
lemma testBit_mulAdd (a b k : Nat) (hb : b < 2^k) (i : Nat) :
    (a * 2^k + b).testBit i = ((a * 2^k).testBit i || b.testBit i) := by
  have hpow : (a * 2^k).testBit i = (decide (i ≥ k) && a.testBit (i - k)) := by
    rw [← Nat.shiftLeft_eq, Nat.testBit_shiftLeft]
  rcases Nat.lt_or_ge i k with h | h
  · have hdvd : a * 2^k = 2^i * (a * 2^(k-i)) := by
      rw [show 2^i * (a * 2^(k-i)) = a * (2^i * 2^(k-i)) by ring, ← pow_add]
      congr 2
      omega
    have heven : a * 2^(k-i) % 2 = 0 := by
      rw [show k - i = (k - i - 1) + 1 by omega, pow_succ, ← mul_assoc, Nat.mul_mod_left]
    have hmod : (a * 2^k + b).testBit i = b.testBit i := by
      rw [Nat.testBit_to_div_mod, Nat.testBit_to_div_mod, hdvd,
          Nat.mul_add_div (Nat.two_pow_pos i), decide_eq_decide]
      omega
    rw [hmod, hpow]
    simp [Nat.not_le_of_lt h]
  · have hb' : b.testBit i = false :=
      Nat.testBit_lt_two_pow (lt_of_lt_of_le hb (Nat.pow_le_pow_right (by omega) h))
    have hsplit : (a * 2^k + b).testBit i = a.testBit (i - k) := by
      rw [Nat.testBit_to_div_mod,
          show 2^i = 2^k * 2^(i-k) by rw [← pow_add]; congr 1; omega,
          ← Nat.div_div_eq_div_mul,
          show a * 2^k + b = 2^k * a + b by ring_nf,
          Nat.mul_add_div (Nat.two_pow_pos k),
          Nat.div_eq_of_lt hb, Nat.add_zero, ← Nat.testBit_to_div_mod]
    rw [hsplit, hpow, hb', Bool.or_false]
    simp [h]

/-- Bit-or of disjoint fields is addition. -/
lemma lor_mulAdd (a b k : Nat) (hb : b < 2^k) : a * 2^k ||| b = a * 2^k + b := by
  apply Nat.eq_of_testBit_eq
  intro i
  rw [Nat.testBit_lor, testBit_mulAdd a b k hb i]

/-- The C reassembly `b0<<24 | b1<<16 | b2<<8 | b3` over bytes is plain
base-256 recomposition. -/
lemma int32_assemble (b0 b1 b2 b3 : Nat)
    (h1 : b1 < 256) (h2 : b2 < 256) (h3 : b3 < 256) :
    b0 <<< 24 ||| b1 <<< 16 ||| b2 <<< 8 ||| b3 =
      b0 * 2^24 + b1 * 2^16 + b2 * 2^8 + b3 := by
  rw [Nat.shiftLeft_eq, Nat.shiftLeft_eq, Nat.shiftLeft_eq]
  rw [lor_mulAdd b0 (b1 * 2^16) 24 (by omega)]
  rw [show b0 * 2^24 + b1 * 2^16 = (b0 * 2^8 + b1) * 2^16 by ring]
  rw [lor_mulAdd (b0 * 2^8 + b1) (b2 * 2^8) 16 (by omega)]
  rw [show (b0 * 2^8 + b1) * 2^16 + b2 * 2^8 = (b0 * 2^16 + b1 * 2^8 + b2) * 2^8 by ring]
  rw [lor_mulAdd (b0 * 2^16 + b1 * 2^8 + b2) b3 8 (by omega)]

/-- `write_int32` emits the big-endian base-256 digits of the 32-bit
two's-complement pattern of its argument. -/
lemma write_int32_eq (i : Int) :
    write_int32 i =
      [ (i % 2^32).toNat / 2^24 % 256,
        (i % 2^32).toNat / 2^16 % 256,
        (i % 2^32).toNat / 2^8 % 256,
        (i % 2^32).toNat % 256 ] := by
  unfold write_int32
  rw [Int.fdiv_eq_ediv _ (by norm_num), Int.fdiv_eq_ediv _ (by norm_num),
      Int.fdiv_eq_ediv _ (by norm_num)]
  simp only [List.cons.injEq, and_true]
  exact ⟨by omega, by omega, by omega, by omega⟩

lemma write_int32_length (i : Int) : (write_int32 i).length = 4 := rfl

/-- Round-trip of a 32-bit signed integer through the wire bytes. -/
lemma int32_roundtrip_core (i : Int) (hlo : -(2^31) ≤ i) (hhi : i < 2^31)
    (rest : List Nat) :
    read_int32 (write_int32 i ++ rest) = .ok (i, rest) := by
  rw [write_int32_eq]
  simp only [List.cons_append, List.nil_append, read_int32]
  rw [int32_assemble _ _ _ _ (by omega) (by omega) (by omega)]
  suffices h : toSigned32 ((i % 2^32).toNat / 2^24 % 256 * 2^24 +
      (i % 2^32).toNat / 2^16 % 256 * 2^16 +
      (i % 2^32).toNat / 2^8 % 256 * 2^8 +
      (i % 2^32).toNat % 256) = i by rw [h]
  unfold toSigned32
  split <;> omega

/-- C1: decoding with read_int32 the 4 bytes write_int32 produced for a
32-bit signed integer `i` yields exactly `i` (both operations completing
without I/O failure, i.e. the bytes are all present on the stream). -/
theorem C1_int32_roundtrip (i : Int) (hlo : -(2^31) ≤ i) (hhi : i < 2^31)
    (rest : List Nat) :
    read_int32 (write_int32 i ++ rest) = .ok (i, rest) :=
  int32_roundtrip_core i hlo hhi rest

theorem C1_int32_roundtrip_witness :
    -(2^31) ≤ (-123456789 : Int) ∧ (-123456789 : Int) < 2^31 ∧
      read_int32 (write_int32 (-123456789) ++ [7, 7]) = .ok (-123456789, [7, 7]) :=
  ⟨by norm_num, by norm_num,
    C1_int32_roundtrip (-123456789) (by norm_num) (by norm_num) [7, 7]⟩

/-- C4: write_int32 always emits exactly 4 bytes, in big-endian order of the
32-bit two's-complement pattern (byte0 = bits 24-31, byte1 = bits 16-23,
byte2 = bits 8-15, byte3 = bits 0-7); encoding 0x01020304 emits 01 02 03 04
and encoding -1 emits FF FF FF FF. -/
theorem C4_int32_wire_format :
    (∀ i : Int, (write_int32 i).length = 4) ∧
    (∀ i : Int, write_int32 i =
      [ (i % 2^32).toNat / 2^24 % 256,
        (i % 2^32).toNat / 2^16 % 256,
        (i % 2^32).toNat / 2^8 % 256,
        (i % 2^32).toNat % 256 ]) ∧
    write_int32 0x01020304 = [0x01, 0x02, 0x03, 0x04] ∧
    write_int32 (-1) = [0xFF, 0xFF, 0xFF, 0xFF] := by
  refine ⟨write_int32_length, write_int32_eq, ?_, ?_⟩ <;> decide

/-- C5: read_int32 reassembles the four bytes as
`(b0<<24)|(b1<<16)|(b2<<8)|b3` and interprets the word as 32-bit signed: when
the top bit of the first byte is set the result is the negative
two's-complement value `sum - 2^32`. -/
theorem C5_read_int32_sign (b0 b1 b2 b3 : Nat) (rest : List Nat)
    (h0 : b0 < 256) (h1 : b1 < 256) (h2 : b2 < 256) (h3 : b3 < 256)
    (hsign : 128 ≤ b0) :
    read_int32 (b0 :: b1 :: b2 :: b3 :: rest) =
      .ok (((b0 * 2^24 + b1 * 2^16 + b2 * 2^8 + b3 : Nat) : Int) - 2^32, rest) ∧
    ((b0 * 2^24 + b1 * 2^16 + b2 * 2^8 + b3 : Nat) : Int) - 2^32 < 0 := by
  constructor
  · simp only [read_int32]
    rw [int32_assemble _ _ _ _ h1 h2 h3]
    suffices h : toSigned32 (b0 * 2^24 + b1 * 2^16 + b2 * 2^8 + b3) =
        ((b0 * 2^24 + b1 * 2^16 + b2 * 2^8 + b3 : Nat) : Int) - 2^32 by rw [h]
    unfold toSigned32
    split <;> push_cast <;> omega
  · push_cast
    omega

theorem C5_read_int32_sign_witness :
    read_int32 [0x80, 0, 0, 1] =
      .ok (((0x80 * 2^24 + 0 * 2^16 + 0 * 2^8 + 1 : Nat) : Int) - 2^32, []) ∧
    ((0x80 * 2^24 + 0 * 2^16 + 0 * 2^8 + 1 : Nat) : Int) - 2^32 < 0 :=
  C5_read_int32_sign 0x80 0 0 1 [] (by norm_num) (by norm_num) (by norm_num)
    (by norm_num) (by norm_num)

/-- The host-endianness-selected byte permutation table `double_byte_order`
(serialize.c:280-284): `{7,6,5,4,3,2,1,0}` when `WORDS_BIGENDIAN` is
defined, `{0,1,2,3,4,5,6,7}` otherwise.  The build-time `#ifdef` is the
parameter `be`. -/
def double_byte_order (be : Bool) : Fin 8 → Fin 8 :=
  if be then ![7, 6, 5, 4, 3, 2, 1, 0] else ![0, 1, 2, 3, 4, 5, 6, 7]

/-- The 8 bytes `pl_write_float` (serialize.c:287-306) emits with `Sputc`:
byte `i` of the wire is `cl[double_byte_order[i]]`, where `cl` is the 8-byte
native memory image (the IEEE-754 bit pattern) of the double being written. -/
def write_float_bytes (be : Bool) (cl : Fin 8 → Nat) : List Nat :=
  (List.finRange 8).map (fun i => cl (double_byte_order be i))

/-- The assignment loop of `pl_read_float` (serialize.c:318-324):
`cl[double_byte_order[i]] = c_i`, over the uninitialised stack double
`init`. -/
def read_float_mem (be : Bool) (init : Fin 8 → Nat) (c : Fin 8 → Nat) : Fin 8 → Nat :=
  (List.finRange 8).foldl (fun cl i => Function.update cl (double_byte_order be i) (c i)) init

/-- `pl_read_float` (serialize.c:309-330): `Sgetc` yields the end-of-stream
sentinel `-1` once the stream is exhausted — raising the I/O error with
action "read" — otherwise each byte is placed through the permutation table
and the rebuilt 8-byte memory image is reinterpreted as the double. -/
def pl_read_float (be : Bool) (init : Fin 8 → Nat) :
    List Nat → Except SerError ((Fin 8 → Nat) × List Nat)
  | b0 :: b1 :: b2 :: b3 :: b4 :: b5 :: b6 :: b7 :: rest =>
      .ok (read_float_mem be init ![b0, b1, b2, b3, b4, b5, b6, b7], rest)
  | _ => .error (.ioErr "read")

/-- Reading back the permuted bytes rebuilds the original memory image,
whatever the uninitialised buffer held. -/
lemma float_roundtrip_core (be : Bool) (init cl : Fin 8 → Nat) (rest : List Nat) :
    pl_read_float be init (write_float_bytes be cl ++ rest) = .ok (cl, rest) := by
  cases be
  · have h : read_float_mem false init
        ![cl 0, cl 1, cl 2, cl 3, cl 4, cl 5, cl 6, cl 7] = cl := by
      funext j
      fin_cases j <;> rfl
    show Except.ok (read_float_mem false init
        ![cl 0, cl 1, cl 2, cl 3, cl 4, cl 5, cl 6, cl 7], rest) = .ok (cl, rest)
    rw [h]
  · have h : read_float_mem true init
        ![cl 7, cl 6, cl 5, cl 4, cl 3, cl 2, cl 1, cl 0] = cl := by
      funext j
      fin_cases j <;> rfl
    show Except.ok (read_float_mem true init
        ![cl 7, cl 6, cl 5, cl 4, cl 3, cl 2, cl 1, cl 0], rest) = .ok (cl, rest)
    rw [h]

/-- C2: for every 64-bit double — the value being its 8-byte IEEE-754 bit
pattern `cl`, so finite, zero, subnormal, NaN and infinity alike — reading
back the 8 bytes write_float produced reconstructs exactly the same bit
pattern, with no canonicalization, on either host byte order; and the byte
permutation read_float applies is the inverse (an involution) of the one
write_float applied. -/
theorem C2_float_roundtrip :
    (∀ (be : Bool) (init cl : Fin 8 → Nat) (rest : List Nat),
      pl_read_float be init (write_float_bytes be cl ++ rest) = .ok (cl, rest)) ∧
    (∀ (be : Bool) (i : Fin 8), double_byte_order be (double_byte_order be i) = i) :=
  ⟨float_roundtrip_core, by decide⟩

/-- Modelled from the spec: the stream's text-encoding layer used by the
atom operations lives in the SWI-Prolog stream library, outside this
repository.  `Sputcode` on a stream in `ENC_UTF8` mode (spec §4: the stream
"expands multi-byte code points as needed") emits the standard UTF-8
multi-byte expansion of one code point. -/
def putcode_utf8 (c : Nat) : List Nat :=
  if c < 0x80 then [c]
  else if c < 0x800 then [0xC0 + c / 64, 0x80 + c % 64]
  else if c < 0x10000 then [0xE0 + c / 4096, 0x80 + c / 64 % 64, 0x80 + c % 64]
  else [0xF0 + c / 262144, 0x80 + c / 4096 % 64, 0x80 + c / 64 % 64, 0x80 + c % 64]

/-- Modelled from the spec: `Sgetcode` on a stream in `ENC_UTF8` mode reads
one UTF-8-encoded code point, returning it and the unconsumed rest.  An
exhausted (or malformed) stream yields the end-of-stream sentinel, modelled
as `none` (spec §4: "any read yielding the end-of-stream sentinel"). -/
def getcode_utf8 : List Nat → Option (Nat × List Nat)
  | [] => none
  | b :: r =>
    if b < 0x80 then some (b, r)
    else if b < 0xC0 then none
    else if b < 0xE0 then
      match r with
      | b2 :: r2 =>
        if 0x80 ≤ b2 ∧ b2 < 0xC0 then
          some ((b - 0xC0) * 64 + (b2 - 0x80), r2)
        else none
      | _ => none
    else if b < 0xF0 then
      match r with
      | b2 :: b3 :: r3 =>
        if (0x80 ≤ b2 ∧ b2 < 0xC0) ∧ (0x80 ≤ b3 ∧ b3 < 0xC0) then
          some ((b - 0xE0) * 4096 + (b2 - 0x80) * 64 + (b3 - 0x80), r3)
        else none
      | _ => none
    else if b < 0xF8 then
      match r with
      | b2 :: b3 :: b4 :: r4 =>
        if (0x80 ≤ b2 ∧ b2 < 0xC0) ∧ (0x80 ≤ b3 ∧ b3 < 0xC0) ∧ (0x80 ≤ b4 ∧ b4 < 0xC0) then
          some ((b - 0xF0) * 262144 + (b2 - 0x80) * 4096 + (b3 - 0x80) * 64 + (b4 - 0x80), r4)
        else none
      | _ => none
    else none

/-- The full UTF-8 expansion of a char sequence: the bytes the encoding
layer puts on the wire for the character loop of `pl_write_atom`. -/
def utf8_bytes : List Nat → List Nat
  | [] => []
  | c :: cs => putcode_utf8 c ++ utf8_bytes cs

/-- Read-side stream state: the bytes still unread, and the stream's
mutable text-encoding field (`s->encoding`). -/
structure RStream where
  input : List Nat
  encoding : IOENC
  deriving DecidableEq

/-- Write-side stream state: the bytes written so far, the number of bytes
the stream can take in total before writes start failing (modelling
`Sfwrite`/`Sputcode`/`Sputc` reporting a fault, e.g. stream closed or disk
full), and the encoding field. -/
structure WStream where
  out : List Nat
  cap : Nat
  encoding : IOENC
  deriving DecidableEq

/-- One write of `bs` against the stream: succeeds, appending the bytes,
iff the stream can still take all of them. -/
def sput (s : WStream) (bs : List Nat) : Option WStream :=
  if s.out.length + bs.length ≤ s.cap then some { s with out := s.out ++ bs } else none

/-- `pl_write_int32` (serialize.c:159-169) on an in-range integer: the body
of `write_int32` (serialize.c:143-156).  `Sfwrite(b,1,4,s) != 4` raises the
I/O error with action "write". -/
def pl_write_int32 (i : Int) (s : WStream) : Except SerError Unit × WStream :=
  match sput s (write_int32 i) with
  | none => (.error (.ioErr "write"), s)
  | some s1 => (.ok (), s1)

/-- The stream side of `pl_write_float` (serialize.c:287-306): the 8
permuted bytes are written with `Sputc`, the first failing byte raising the
I/O error with action "write" (the per-byte loop is modelled as one write
of the 8 bytes: it succeeds iff the stream takes all of them). -/
def pl_write_float (be : Bool) (cl : Fin 8 → Nat) (s : WStream) :
    Except SerError Unit × WStream :=
  match sput s (write_float_bytes be cl) with
  | none => (.error (.ioErr "write"), s)
  | some s1 => (.ok (), s1)

/-- The character loop of `pl_write_atom` (serialize.c:264-270): each atom
char (an `unsigned char`) is sent with `Sputcode` through the stream's
UTF-8 layer; the first failing write aborts.  The error value carries the
stream at the failure point. -/
def write_chars : List Nat → WStream → Except WStream WStream
  | [], s => .ok s
  | ch :: cs, s =>
    match sput s (putcode_utf8 ch) with
    | none => .error s
    | some s1 => write_chars cs s1

/-- `pl_write_atom` (serialize.c:249-277): writes the character count as a
wire int32 — the `size_t` length is passed through the `int` parameter of
`write_int32`, i.e. reinterpreted by `toSigned32` — then switches the
stream to `ENC_UTF8`, writes each char through the UTF-8 layer, and
restores the prior encoding on the success exit and on the failure exit
alike (serialize.c:267,271). -/
def pl_write_atom (text : List Nat) (s : WStream) : Except SerError Unit × WStream :=
  match sput s (write_int32 (toSigned32 text.length)) with
  | none => (.error (.ioErr "write"), s)
  | some s1 =>
    match write_chars text { s1 with encoding := .ENC_UTF8 } with
    | .error sf => (.error (.ioErr "write"), { sf with encoding := s.encoding })
    | .ok sd => (.ok (), { sd with encoding := s.encoding })

/-- The C comparison `len < sizeof(buf)` (serialize.c:219) converts the
signed `int len` to `size_t` (64-bit unsigned) before comparing, so a
negative length compares as a huge number. -/
def toUnsigned64 (i : Int) : Nat := (i % 2^64).toNat

/-- The buffer decision of `pl_read_atom` (serialize.c:219-221): the heap
buffer (`malloc(len)`) is used exactly when `len < sizeof(buf)` fails,
`sizeof(buf)` being 1024. -/
def read_atom_usesHeap (len : Int) : Bool := ! decide (toUnsigned64 len < 1024)

/-- The character loop of `pl_read_atom` (serialize.c:225-235): reads `n`
code points with `Sgetcode`; each is stored into one `char` cell of the
buffer (`*q++ = c`), keeping only the low byte of the code point.  On the
end-of-stream sentinel the loop aborts; the error carries the unconsumed
input at the failure point. -/
def read_chars : Nat → List Nat → Except (List Nat) (List Nat × List Nat)
  | 0, input => .ok ([], input)
  | n + 1, input =>
    match getcode_utf8 input with
    | none => .error input
    | some (c, r) =>
      match read_chars n r with
      | .error r2 => .error r2
      | .ok (cs, r2) => .ok ((c % 256) :: cs, r2)

/-- `pl_read_atom` (serialize.c:204-246), with `allocOk` modelling whether
the heap `malloc` can be satisfied.  Reads the 4-byte length prefix (before
touching the encoding field), chooses the stack or heap buffer, switches
the stream to `ENC_UTF8`, reads `len` code points (none when `len` is
negative: the loop guard `i < len` is a signed comparison), restores the
prior encoding on every exit path, and returns the stored chars. -/
def pl_read_atom (allocOk : Bool) (s : RStream) : Except SerError (List Nat) × RStream :=
  match read_int32 s.input with
  | .error e => (.error e, { s with input := [] })
  | .ok (len, rest) =>
    if read_atom_usesHeap len ∧ ¬ allocOk then
      (.error (.resourceErr "memory"), { s with input := rest })
    else
      match read_chars len.toNat rest with
      | .error r => (.error (.ioErr "read"), { input := r, encoding := s.encoding })
      | .ok (cs, r) => (.ok cs, { input := r, encoding := s.encoding })

/-- Decoding inverts encoding for every code point the UTF-8 layer can
carry. -/
lemma getcode_putcode (c : Nat) (hc : c < 0x110000) (rest : List Nat) :
    getcode_utf8 (putcode_utf8 c ++ rest) = some (c, rest) := by
  unfold putcode_utf8
  split_ifs with h1 h2 h3
  · simp only [List.cons_append, List.nil_append, getcode_utf8]
    rw [if_pos h1]
  · simp only [List.cons_append, List.nil_append, getcode_utf8]
    rw [if_neg (by omega), if_neg (by omega), if_pos (by omega), if_pos (by omega)]
    simp only [Option.some.injEq, Prod.mk.injEq, and_true]
    omega
  · simp only [List.cons_append, List.nil_append, getcode_utf8]
    rw [if_neg (by omega), if_neg (by omega), if_neg (by omega), if_pos (by omega),
        if_pos (by constructor <;> omega)]
    simp only [Option.some.injEq, Prod.mk.injEq, and_true]
    omega
  · simp only [List.cons_append, List.nil_append, getcode_utf8]
    rw [if_neg (by omega), if_neg (by omega), if_neg (by omega), if_neg (by omega),
        if_pos (by omega), if_pos (by refine ⟨by omega, by omega, by omega⟩)]
    simp only [Option.some.injEq, Prod.mk.injEq, and_true]
    omega

/-- A nonnegative length below `2^31` passes through the `int`
reinterpretation unchanged. -/
lemma toSigned32_ofNat (n : Nat) (h : n < 2^31) : toSigned32 n = (n : Int) := by
  unfold toSigned32
  rw [if_pos (by omega)]
  omega

lemma usesHeap_false (len : Int) (h0 : 0 ≤ len) (h1 : len < 1024) :
    read_atom_usesHeap len = false := by
  have h : toUnsigned64 len < 1024 := by unfold toUnsigned64; omega
  unfold read_atom_usesHeap
  rw [decide_eq_true h]
  rfl

lemma usesHeap_true (len : Int) (h1 : 1024 ≤ len) (h2 : len < 2^31) :
    read_atom_usesHeap len = true := by
  have h : ¬ toUnsigned64 len < 1024 := by unfold toUnsigned64; omega
  unfold read_atom_usesHeap
  rw [decide_eq_false h]
  rfl

/-- A character sequence whose full UTF-8 expansion still fits is written
out whole, and only `out` changes. -/
lemma write_chars_ok (cs : List Nat) (s : WStream)
    (hcap : s.out.length + (utf8_bytes cs).length ≤ s.cap) :
    write_chars cs s = .ok { s with out := s.out ++ utf8_bytes cs } := by
  induction cs generalizing s with
  | nil =>
    simp [write_chars, utf8_bytes]
  | cons ch cs ih =>
    unfold write_chars sput
    rw [if_pos (by simp only [utf8_bytes, List.length_append] at hcap; omega)]
    dsimp only
    rw [ih _ (by
      dsimp only
      simp only [utf8_bytes, List.length_append] at hcap ⊢
      omega)]
    simp [utf8_bytes, List.append_assoc]

/-- Successful `pl_write_atom`: the stream receives the 4-byte length
prefix followed by the UTF-8 expansion of the chars, and the encoding field
is restored. -/
lemma pl_write_atom_ok (text : List Nat) (s : WStream)
    (hcap : s.out.length + 4 + (utf8_bytes text).length ≤ s.cap) :
    pl_write_atom text s =
      (.ok (), { s with
        out := s.out ++ write_int32 (toSigned32 text.length) ++ utf8_bytes text }) := by
  unfold pl_write_atom sput
  rw [if_pos (by rw [write_int32_length]; omega)]
  dsimp only
  rw [write_chars_ok text _ (by
    dsimp only
    rw [List.length_append, write_int32_length]
    omega)]

/-- The read loop inverts the UTF-8 expansion, storing each code point
reduced to its low byte. -/
lemma read_chars_ok (cs : List Nat) (rest : List Nat) (hv : ∀ c ∈ cs, c < 0x110000) :
    read_chars cs.length (utf8_bytes cs ++ rest) =
      .ok (cs.map (fun c => c % 256), rest) := by
  induction cs with
  | nil => rfl
  | cons c cs ih =>
    show read_chars (cs.length + 1) ((putcode_utf8 c ++ utf8_bytes cs) ++ rest) = _
    rw [List.append_assoc]
    unfold read_chars
    rw [getcode_putcode c (hv c (by simp)) _]
    dsimp only
    rw [ih (fun x hx => hv x (by simp [hx]))]
    rfl

/-- Chars below 256 are unchanged by the low-byte truncation. -/
lemma map_mod256_self (cs : List Nat) (hv : ∀ c ∈ cs, c < 256) :
    cs.map (fun c => c % 256) = cs := by
  induction cs with
  | nil => rfl
  | cons c cs ih =>
    simp only [List.map_cons, List.cons.injEq]
    exact ⟨Nat.mod_eq_of_lt (hv c (by simp)),
      ih (fun x hx => hv x (by simp [hx]))⟩

/-- Successful `pl_read_atom` over a well-formed wire atom. -/
lemma pl_read_atom_ok (allocOk : Bool) (text : List Nat) (enc : IOENC) (rest : List Nat)
    (hv : ∀ c ∈ text, c < 0x110000) (hlen : text.length < 2^31)
    (halloc : text.length < 1024 ∨ allocOk = true) :
    pl_read_atom allocOk
        ⟨write_int32 (toSigned32 text.length) ++ utf8_bytes text ++ rest, enc⟩ =
      (.ok (text.map (fun c => c % 256)), ⟨rest, enc⟩) := by
  unfold pl_read_atom
  dsimp only
  rw [toSigned32_ofNat text.length hlen, List.append_assoc,
      int32_roundtrip_core (text.length : Int) (by omega) (by push_cast; omega)]
  dsimp only
  rw [if_neg ?hcond]
  case hcond =>
    rintro ⟨ha, hb⟩
    rcases halloc with h | h
    · rw [usesHeap_false _ (by omega) (by omega)] at ha
      exact Bool.false_ne_true ha
    · exact hb h
  have htn : ((text.length : Int)).toNat = text.length := Int.toNat_natCast _
  rw [htn, read_chars_ok text rest hv]

/-- C3: for every text all of whose chars are single wire units (one byte
each, the chars of the C `char*` buffer), of any length — in particular 0,
1, 1023, 1024 and 1025, on both sides of the stack/heap threshold —
read_atom applied to the bytes write_atom produced yields the original
text (the heap allocation succeeding where one is needed). -/
theorem C3_atom_roundtrip (text : List Nat) (s : WStream) (enc : IOENC) (rest : List Nat)
    (hv : ∀ c ∈ text, c < 256) (hlen : text.length < 2^31)
    (hcap : s.out.length + 4 + (utf8_bytes text).length ≤ s.cap) :
    pl_write_atom text s =
      (.ok (), { s with
        out := s.out ++ write_int32 (toSigned32 text.length) ++ utf8_bytes text }) ∧
    pl_read_atom true
        ⟨write_int32 (toSigned32 text.length) ++ utf8_bytes text ++ rest, enc⟩ =
      (.ok text, ⟨rest, enc⟩) := by
  refine ⟨pl_write_atom_ok text s hcap, ?_⟩
  rw [pl_read_atom_ok true text enc rest
        (fun c hc => lt_of_lt_of_le (hv c hc) (by norm_num)) hlen (Or.inr rfl),
      map_mod256_self text hv]

theorem C3_atom_roundtrip_witness :
    pl_write_atom [65, 200] ⟨[9], 50, IOENC.ENC_ASCII⟩ =
      (.ok (), ⟨[9] ++ write_int32 (toSigned32 2) ++ utf8_bytes [65, 200], 50,
        IOENC.ENC_ASCII⟩) ∧
    pl_read_atom true
        ⟨write_int32 (toSigned32 2) ++ utf8_bytes [65, 200] ++ [1, 2], IOENC.ENC_WCHAR⟩ =
      (.ok [65, 200], ⟨[1, 2], IOENC.ENC_WCHAR⟩) :=
  C3_atom_roundtrip [65, 200] ⟨[9], 50, IOENC.ENC_ASCII⟩ IOENC.ENC_WCHAR [1, 2]
    (by decide) (by decide) (by decide)

/-- C6: both atom operations leave the stream's encoding-mode field equal
to its pre-call value on every exit path: success, I/O failure while
reading or writing the length prefix, I/O failure during a character, and
allocation failure. -/
theorem C6_encoding_restored :
    (∀ (allocOk : Bool) (s : RStream), (pl_read_atom allocOk s).2.encoding = s.encoding) ∧
    (∀ (text : List Nat) (s : WStream), (pl_write_atom text s).2.encoding = s.encoding) := by
  constructor
  · intro allocOk s
    unfold pl_read_atom
    split
    · rfl
    · split
      · rfl
      · split <;> rfl
  · intro text s
    unfold pl_write_atom
    split
    · rfl
    · split <;> rfl

/-- C10: inside read_atom every decoded code point is stored into a single
`char` cell, so a wire character whose code point exceeds 255 decodes
without error into the code point reduced modulo 256, not the original
character. -/
theorem C10_char_truncation (c : Nat) (hc : 256 ≤ c) (hc2 : c < 0x110000)
    (enc : IOENC) (rest : List Nat) (allocOk : Bool) :
    pl_read_atom allocOk ⟨write_int32 (toSigned32 1) ++ utf8_bytes [c] ++ rest, enc⟩ =
      (.ok [c % 256], ⟨rest, enc⟩) ∧ c % 256 ≠ c := by
  constructor
  · exact pl_read_atom_ok allocOk [c] enc rest (by simpa using hc2) (by norm_num)
      (Or.inl (by norm_num))
  · omega

theorem C10_char_truncation_witness :
    pl_read_atom true
        ⟨write_int32 (toSigned32 1) ++ utf8_bytes [256] ++ [3], IOENC.ENC_UTF8⟩ =
      (.ok [256 % 256], ⟨[3], IOENC.ENC_UTF8⟩) ∧ 256 % 256 ≠ 256 :=
  C10_char_truncation 256 (by norm_num) (by norm_num) IOENC.ENC_UTF8 [3] true

/-- C7: every decode consumes exactly the bytes its encode produced:
4 bytes per integer, 8 per float, and for an atom the 4-byte length prefix
plus the UTF-8 expansion of exactly `count` characters — when a decode runs
on encode's output followed by `rest`, exactly `rest` is left over, with no
padding or optional fields. -/
theorem C7_exact_consumption :
    (∀ i : Int, (write_int32 i).length = 4) ∧
    (∀ (i : Int) (rest : List Nat), -(2^31) ≤ i → i < 2^31 →
      ∃ v, read_int32 (write_int32 i ++ rest) = .ok (v, rest)) ∧
    (∀ (be : Bool) (cl : Fin 8 → Nat), (write_float_bytes be cl).length = 8) ∧
    (∀ (be : Bool) (init cl : Fin 8 → Nat) (rest : List Nat),
      ∃ g, pl_read_float be init (write_float_bytes be cl ++ rest) = .ok (g, rest)) ∧
    (∀ (text : List Nat) (s : WStream),
      s.out.length + 4 + (utf8_bytes text).length ≤ s.cap →
      (pl_write_atom text s).2.out =
        s.out ++ write_int32 (toSigned32 text.length) ++ utf8_bytes text) ∧
    (∀ (text : List Nat) (enc : IOENC) (rest : List Nat),
      (∀ c ∈ text, c < 0x110000) → text.length < 2^31 →
      ∃ a, pl_read_atom true
          ⟨write_int32 (toSigned32 text.length) ++ utf8_bytes text ++ rest, enc⟩ =
        (.ok a, ⟨rest, enc⟩)) := by
  refine ⟨write_int32_length, ?_, ?_, ?_, ?_, ?_⟩
  · intro i rest h1 h2
    exact ⟨i, int32_roundtrip_core i h1 h2 rest⟩
  · intro be cl
    rfl
  · intro be init cl rest
    exact ⟨cl, float_roundtrip_core be init cl rest⟩
  · intro text s hcap
    rw [pl_write_atom_ok text s hcap]
  · intro text enc rest hv hlen
    exact ⟨text.map (fun c => c % 256), pl_read_atom_ok true text enc rest hv hlen (Or.inr rfl)⟩

theorem C7_exact_consumption_witness :
    (write_int32 5).length = 4 ∧
    (∃ v, read_int32 (write_int32 5 ++ [9]) = .ok (v, [9])) ∧
    (∃ g, pl_read_float false (fun _ => 0)
        (write_float_bytes false (fun i => (i : Nat)) ++ [4]) = .ok (g, [4])) ∧
    (pl_write_atom [66, 200] ⟨[], 9, IOENC.ENC_OCTET⟩).2.out =
      [] ++ write_int32 (toSigned32 ([66, 200] : List Nat).length) ++ utf8_bytes [66, 200] ∧
    (∃ a, pl_read_atom true
        ⟨write_int32 (toSigned32 ([66, 200] : List Nat).length) ++
          utf8_bytes [66, 200] ++ [7], IOENC.ENC_ASCII⟩ =
      (.ok a, ⟨[7], IOENC.ENC_ASCII⟩)) :=
  ⟨C7_exact_consumption.1 5,
   C7_exact_consumption.2.1 5 [9] (by norm_num) (by norm_num),
   C7_exact_consumption.2.2.2.1 false (fun _ => 0) (fun i => (i : Nat)) [4],
   C7_exact_consumption.2.2.2.2.1 [66, 200] ⟨[], 9, IOENC.ENC_OCTET⟩ (by decide),
   C7_exact_consumption.2.2.2.2.2 [66, 200] IOENC.ENC_ASCII [7] (by decide) (by decide)⟩

/-- C8 as stated is refuted by a negative decoded count: the C comparison
`len < sizeof(buf)` converts `len` to `size_t`, so `len = -1` — which is
below 1024 — takes the heap branch and can fail with
ResourceError("memory"). -/
theorem C8_counterexample :
    read_int32 [0xFF, 0xFF, 0xFF, 0xFF] = .ok (-1, []) ∧
    (-1 : Int) < 1024 ∧
    read_atom_usesHeap (-1) = true ∧
    pl_read_atom false ⟨[0xFF, 0xFF, 0xFF, 0xFF], IOENC.ENC_UTF8⟩ =
      (.error (.resourceErr "memory"), ⟨[], IOENC.ENC_UTF8⟩) :=
  ⟨rfl, by norm_num, rfl, rfl⟩

/-- C8 (amended): for a NONNEGATIVE decoded character count below the
threshold 1024 the fixed-size stack buffer is used and the operation never
fails with ResourceError; for a count of 1024 or more (every such count a
wire int32 can decode to, i.e. below 2^31) a heap allocation is attempted
and the operation fails with ResourceError("memory") exactly when that
allocation cannot be satisfied, consuming nothing beyond the length prefix
in that case. -/
theorem C8_buffer_threshold (len : Int) (s : RStream) (rest : List Nat)
    (hread : read_int32 s.input = .ok (len, rest)) :
    (0 ≤ len → len < 1024 →
      read_atom_usesHeap len = false ∧
      ∀ (allocOk : Bool) (w : String),
        (pl_read_atom allocOk s).1 ≠ .error (.resourceErr w)) ∧
    (1024 ≤ len → len < 2^31 →
      read_atom_usesHeap len = true ∧
      pl_read_atom false s = (.error (.resourceErr "memory"), { s with input := rest }) ∧
      ∀ (w : String), (pl_read_atom true s).1 ≠ .error (.resourceErr w)) := by
  constructor
  · intro h0 h1
    refine ⟨usesHeap_false len h0 h1, ?_⟩
    intro allocOk w
    unfold pl_read_atom
    rw [hread]
    dsimp only
    rw [if_neg (by
      rw [usesHeap_false len h0 h1]
      rintro ⟨ha, _⟩
      exact Bool.false_ne_true ha)]
    split <;> simp
  · intro h0 h1
    refine ⟨usesHeap_true len h0 h1, ?_, ?_⟩
    · unfold pl_read_atom
      rw [hread]
      dsimp only
      rw [if_pos ⟨usesHeap_true len h0 h1, by simp⟩]
    · intro w
      unfold pl_read_atom
      rw [hread]
      dsimp only
      rw [if_neg (by rintro ⟨_, hb⟩; exact hb rfl)]
      split <;> simp

theorem C8_buffer_threshold_witness :
    (read_atom_usesHeap 3 = false ∧
      ∀ (allocOk : Bool) (w : String),
        (pl_read_atom allocOk ⟨[0, 0, 0, 3, 65, 66, 67], IOENC.ENC_UTF8⟩).1 ≠
          .error (.resourceErr w)) ∧
    (read_atom_usesHeap 1024 = true ∧
      pl_read_atom false ⟨[0, 0, 4, 0], IOENC.ENC_UTF8⟩ =
        (.error (.resourceErr "memory"), ⟨[], IOENC.ENC_UTF8⟩) ∧
      ∀ (w : String),
        (pl_read_atom true ⟨[0, 0, 4, 0], IOENC.ENC_UTF8⟩).1 ≠ .error (.resourceErr w)) :=
  ⟨(C8_buffer_threshold 3 ⟨[0, 0, 0, 3, 65, 66, 67], IOENC.ENC_UTF8⟩ [65, 66, 67]
      rfl).1 (by norm_num) (by norm_num),
   (C8_buffer_threshold 1024 ⟨[0, 0, 4, 0], IOENC.ENC_UTF8⟩ []
      rfl).2 (by norm_num) (by norm_num)⟩

/-- Prolog terms as built by `PL_unify_term` in the error helpers: atoms
(`PL_CHARS`), a fresh variable (`PL_VARIABLE`), the stream term
(`PL_TERM, stream`), and binary compounds (`PL_FUNCTOR` with the
functors declared at serialize.c:47-63). -/
inductive PlTerm where
  | atomStr : String → PlTerm
  | var : PlTerm
  | streamRef : Nat → PlTerm
  | functor2 : String → PlTerm → PlTerm → PlTerm
  deriving DecidableEq

/-- `io_error` (serialize.c:65-84): builds
`error(io_error(Action, Stream), context(_, Msg))`, where `Msg` is the
platform `strerror(errno)` text or "Unknown error" when `strerror` yields
NULL.  The platform-dependent `strerror` result is the parameter `msg?`
(`none` for NULL). -/
def io_error (stream : PlTerm) (action : String) (msg? : Option String) : PlTerm :=
  .functor2 "error"
    (.functor2 "io_error" (.atomStr action) stream)
    (.functor2 "context" .var (.atomStr (msg?.getD "Unknown error")))

/-- Failed `read_int32` only ever reports an I/O error with action
"read". -/
lemma read_int32_error (input : List Nat) (e : SerError)
    (h : read_int32 input = .error e) : e = .ioErr "read" := by
  unfold read_int32 at h
  split at h
  · exact absurd h (by simp)
  · simp only [Except.error.injEq] at h
    exact h.symm

/-- C9: the error term raised on an I/O failure carries the stream
reference, the action verb, and the platform error description —
"Unknown error" when none is retrievable — and each of the six operations
fails immediately with the verb of its failing direction ("read" for the
decode side, "write" for the encode side), with no partial result: a
failed integer/float write leaves the stream as it was, and a failed read
returns no value. -/
theorem C9_io_error_payload :
    (∀ (st : PlTerm) (a m : String),
      io_error st a (some m) =
        .functor2 "error" (.functor2 "io_error" (.atomStr a) st)
          (.functor2 "context" .var (.atomStr m))) ∧
    (∀ (st : PlTerm) (a : String),
      io_error st a none =
        .functor2 "error" (.functor2 "io_error" (.atomStr a) st)
          (.functor2 "context" .var (.atomStr "Unknown error"))) ∧
    (∀ (input : List Nat) (e : SerError),
      read_int32 input = .error e → e = .ioErr "read") ∧
    (∀ (be : Bool) (init : Fin 8 → Nat) (input : List Nat) (e : SerError),
      pl_read_float be init input = .error e → e = .ioErr "read") ∧
    (∀ (allocOk : Bool) (s : RStream) (e : SerError),
      (pl_read_atom allocOk s).1 = .error e →
        e = .ioErr "read" ∨ e = .resourceErr "memory") ∧
    (∀ (i : Int) (s : WStream),
      (∃ s1, pl_write_int32 i s = (.ok (), s1)) ∨
        pl_write_int32 i s = (.error (.ioErr "write"), s)) ∧
    (∀ (be : Bool) (cl : Fin 8 → Nat) (s : WStream),
      (∃ s1, pl_write_float be cl s = (.ok (), s1)) ∨
        pl_write_float be cl s = (.error (.ioErr "write"), s)) ∧
    (∀ (text : List Nat) (s : WStream) (e : SerError),
      (pl_write_atom text s).1 = .error e → e = .ioErr "write") := by
  refine ⟨fun st a m => rfl, fun st a => rfl, read_int32_error, ?_, ?_, ?_, ?_, ?_⟩
  · intro be init input e h
    unfold pl_read_float at h
    split at h
    · exact absurd h (by simp)
    · simp only [Except.error.injEq] at h
      exact h.symm
  · intro allocOk s e h
    unfold pl_read_atom at h
    split at h
    next e0 heq =>
      simp only [Except.error.injEq] at h
      subst h
      exact Or.inl (read_int32_error s.input e0 heq)
    next len rest heq =>
      split at h
      · simp only [Except.error.injEq] at h
        right
        exact h.symm
      · split at h
        · simp only [Except.error.injEq] at h
          left
          exact h.symm
        · exact absurd h (by simp)
  · intro i s
    unfold pl_write_int32
    cases hs : sput s (write_int32 i) with
    | none => right; rfl
    | some s1 => left; exact ⟨s1, rfl⟩
  · intro be cl s
    unfold pl_write_float
    cases hs : sput s (write_float_bytes be cl) with
    | none => right; rfl
    | some s1 => left; exact ⟨s1, rfl⟩
  · intro text s e h
    unfold pl_write_atom at h
    split at h
    · simp only [Except.error.injEq] at h
      exact h.symm
    · split at h
      · simp only [Except.error.injEq] at h
        exact h.symm
      · exact absurd h (by simp)

theorem C9_io_error_payload_witness :
    (SerError.ioErr "read" = .ioErr "read") ∧
    (SerError.ioErr "read" = .ioErr "read" ∨ SerError.ioErr "read" = .resourceErr "memory") ∧
    (SerError.ioErr "write" = .ioErr "write") :=
  ⟨C9_io_error_payload.2.2.1 [1, 2] (.ioErr "read") rfl,
   C9_io_error_payload.2.2.2.2.1 true ⟨[1, 2], IOENC.ENC_UTF8⟩ (.ioErr "read") rfl,
   C9_io_error_payload.2.2.2.2.2.2.2 [65] ⟨[], 0, IOENC.ENC_UTF8⟩ (.ioErr "write") rfl⟩

end Serialize
